import Mathlib

/-!
Verification of the flystorage AWS-S3 storage adapter and the stream
mime-type resolver against their natural-language specification.

The definitions below are a shallow embedding of the TypeScript source:

* `src/unnamed/part_000` — the `AwsS3FileStorage` adapter
  (`deleteDirectory`, `checksum`, `visibility`, `visibilityToAcl`,
  `fileExists`, `directoryExists`, `mimeType`, `stat`, `list`,
  `listObjects`).
* `src/packages/stream-mime-type/src/stream-mime-type.ts` —
  `streamHead` and `resolveMimeType`.

Streams are embedded as lists of chunks (a chunk is a `List Nat` of
bytes), S3 keys and paths as `List Char`, and JavaScript `undefined`
as `Option`.  Asynchronous calls to the backend are embedded by
passing the backend's response (or the backend bucket state) as an
explicit argument.  Fallible operations return `Except`.
-/

/-! ## deleteDirectory batching (`AwsS3FileStorage.deleteDirectory`)

The source accumulates listed keys into `bucket`, flushing a
`DeleteObjectsCommand` whenever `bucket.length > 1000` holds after a
push, and flushing the remainder (if non-empty) after the loop.  The
embedding returns the list of flushed batches, in dispatch order. -/

def deleteDirGo : List String → List String → List (List String) → List (List String)
  | [], bucket, acc => if bucket.length > 0 then acc ++ [bucket] else acc
  | k :: ks, bucket, acc =>
    let bucket' := bucket ++ [k]
    if bucket'.length > 1000 then deleteDirGo ks [] (acc ++ [bucket'])
    else deleteDirGo ks bucket' acc

/-- The batches of keys dispatched by `deleteDirectory`, given the keys
produced by the recursive listing (in order). -/
def deleteDirectoryBatches (keys : List String) : List (List String) :=
  deleteDirGo keys [] []

/-! ## Stream head buffering (`streamHead`)

The source pipes the input through a `PassThrough` tunnel into the
output stream, while a `data` listener accumulates chunks until the
byte count reaches `size` (then it resolves with the concatenated
head) or the stream ends.  Every chunk is forwarded to the output
stream regardless of resolution state. -/

structure HeadState where
  resolved : Bool
  readBytes : Nat
  buffers : List (List Nat)
  headBytes : List Nat
  forwarded : List (List Nat)
deriving Repr, DecidableEq

/-- One `data` event on the tunnel: the chunk is forwarded to the
output stream; if not yet resolved it is buffered, and once the byte
count reaches `size` the head is fixed. -/
def onData (size : Nat) (s : HeadState) (chunk : List Nat) : HeadState :=
  let s := { s with forwarded := s.forwarded ++ [chunk] }
  if s.resolved then s
  else
    let readBytes := s.readBytes + chunk.length
    let buffers := s.buffers ++ [chunk]
    if size ≤ readBytes then
      { s with resolved := true, readBytes := readBytes, buffers := [],
               headBytes := buffers.flatten }
    else
      { s with readBytes := readBytes, buffers := buffers }

/-- The `end` event: if the threshold was never reached, resolve with
whatever was buffered. -/
def onEnd (s : HeadState) : HeadState :=
  if s.resolved then s else { s with resolved := true, headBytes := s.buffers.flatten }

def initialHeadState : HeadState :=
  { resolved := false, readBytes := 0, buffers := [], headBytes := [], forwarded := [] }

/-- The function `streamHead(stream, size)`: returns the buffered head and the
output stream (as the list of chunks it carries). -/
def streamHead (chunks : List (List Nat)) (size : Nat) : List Nat × List (List Nat) :=
  let fin := onEnd (chunks.foldl (onData size) initialHeadState)
  (fin.headBytes, fin.forwarded)

/-! ## `resolveMimeType`

Sniffs the 4100-byte head with `fileTypeFromBuffer`, then falls back
to `mime-types` lookup on the filename's extension, then to the
caller-supplied fallback (`mimeTimeForExt(ext) || fallback`).  The
content sniffer, the extension parser and the extension-to-mime table
are external libraries, embedded as function arguments. -/

def resolveMimeType (sniff : List Nat → Option String)
    (extOf : String → String) (mimeForExt : String → Option String)
    (filename : String) (chunks : List (List Nat))
    (fallback : Option String) : Option String × List (List Nat) :=
  let res := streamHead chunks 4100
  match sniff res.1 with
  | some mime => (some mime, res.2)
  | none =>
    match mimeForExt (extOf filename) with
    | some mime => (some mime, res.2)
    | none => (fallback, res.2)

/-! ## Checksum algorithm dispatch (`AwsS3FileStorage.checksum`)

`(options.algo || this.options.defaultChecksumAlgo || 'SHA256').toUpperCase()`
followed by the `isSupportedAlgo` guard.  JavaScript `||` takes the
right operand when the left is `undefined` or the empty string. -/

/-- JavaScript `a || b` on `string | undefined`: the empty string is falsy. -/
def jsOrStr (a : Option String) (b : String) : String :=
  match a with
  | some s => if s = "" then b else s
  | none => b

/-- JavaScript `toUpperCase` on ASCII algorithm names. -/
def toUpperChar (c : Char) : Char :=
  if 'a' ≤ c ∧ c ≤ 'z' then Char.ofNat (c.toNat - 32) else c

def strToUpper (s : String) : String := String.mk (s.data.map toUpperChar)

def possibleChecksumAlgos : List String := ["SHA1", "SHA256", "CRC32", "CRC32C", "ETAG"]

def isSupportedAlgo (algo : String) : Bool := possibleChecksumAlgos.contains algo

/-- Outcome of the algorithm-dispatch phase of `checksum`: either the
distinct `ChecksumIsNotAvailable` error, or the head request proceeds
with the resolved algorithm. -/
inductive ChecksumDispatch where
  | notAvailable (algo : String)
  | headRequest (algo : String)
deriving Repr, DecidableEq

/-- The algorithm-resolution and guard at the top of `checksum`. -/
def checksumDispatch (optAlgo defAlgo : Option String) : ChecksumDispatch :=
  let algo := strToUpper (jsOrStr optAlgo (jsOrStr defAlgo "SHA256"))
  if isSupportedAlgo algo then .headRequest algo else .notAvailable algo

/-! ## Visibility mapping (`visibilityToAcl`, `visibility`)

Modelled from the spec: the `Visibility` enumeration lives in the
`@flystorage/file-storage` package (not under `src/`); the spec gives
an enumerated abstraction {PUBLIC, PRIVATE} whose values the adapter
compares against. -/

def visibilityPublic : String := "public"

def visibilityPrivate : String := "private"

structure Grant where
  granteeURI : Option String
  permission : Option String
deriving Repr, DecidableEq

def allUsersURI : String := "http://acs.amazonaws.com/groups/global/AllUsers"

/-- The predicate tested by `visibility` on each grant. -/
def isAllUsersRead (g : Grant) : Bool :=
  g.granteeURI == some allUsersURI && g.permission == some "READ"

/-- The mapping `visibilityToAcl`: PUBLIC ↦ canned ACL `public-read`, PRIVATE ↦
`private`, anything else throws. -/
def visibilityToAcl (visibility : String) : Except String String :=
  if visibility = visibilityPublic then .ok "public-read"
  else if visibility = visibilityPrivate then .ok "private"
  else .error ("Unrecognized visibility provided; " ++ visibility)

/-- The query `visibility(path)`: inspects `response.Grants` (possibly absent)
for an all-users READ grant. -/
def visibilityFromGrants (grants : Option (List Grant)) : String :=
  let publicRead := (grants.map (fun gs => gs.any isAllUsersRead)).getD false
  if publicRead then visibilityPublic else visibilityPrivate

/-! ## Existence checks (`fileExists`, `directoryExists`) -/

/-- An error thrown by the S3 client: whether it is an
`S3ServiceException`, and the HTTP status of its `$metadata`. -/
structure S3Error where
  isS3ServiceException : Bool
  httpStatusCode : Option Nat
deriving Repr, DecidableEq

/-- The backend's response to `HeadObjectCommand`. -/
structure HeadResponse where
  ContentLength : Option Nat
  LastModified : Option Int
  ContentType : Option String
deriving Repr, DecidableEq

/-- The check `fileExists`: a successful head means `true`; a 404
`S3ServiceException` is caught and means `false`; anything else is
rethrown. -/
def fileExists (send : Except S3Error HeadResponse) : Except S3Error Bool :=
  match send with
  | .ok _ => .ok true
  | .error e =>
    if e.isS3ServiceException && e.httpStatusCode == some 404 then .ok false
    else .error e

/-! ## `stat` and the JavaScript date accessor -/

/-- JavaScript `Date.prototype.getMilliseconds`: the millisecond
component (0–999) of the date, not the epoch timestamp.  `t` is the
date's epoch-milliseconds value (`getTime()`). -/
def getMilliseconds (t : Int) : Int := t % 1000

inductive EntryType where
  | file
  | directory
deriving Repr, DecidableEq

/-- The `StatEntry` built by `stat` (the file variant). -/
structure StatEntry where
  path : String
  type : EntryType
  isDirectory : Bool
  isFile : Bool
  size : Nat
  lastModifiedMs : Option Int
  mimeType : Option String
deriving Repr, DecidableEq

/-- The operation `stat(path)`: heads the object and builds the file variant of
`StatEntry` from the response. -/
def stat (path : String) (response : HeadResponse) : StatEntry :=
  { path := path
    type := .file
    isDirectory := false
    isFile := true
    size := response.ContentLength.getD 0
    lastModifiedMs := response.LastModified.map getMilliseconds
    mimeType := response.ContentType }

/-! ## `mimeType` resolution -/

structure MimeTypeOptions where
  disallowFallback : Bool
  fallbackMethod : Option String
deriving Repr, DecidableEq

inductive MimeErr where
  | notAFile
  | notAvailableViaHeadObject
  | unableToResolve
deriving Repr, DecidableEq

/-- JavaScript truthiness of `string | undefined`. -/
def jsTruthyStr : Option String → Bool
  | some s => s ≠ ""
  | none => false

/-- The helper `lookupMimeTypeFromStream`: re-reads the object, pipes it through
`resolveMimeType` and discards (closes) the returned stream, keeping
only the mime-type. -/
def lookupMimeTypeFromStream (sniff : List Nat → Option String)
    (extOf : String → String) (mimeForExt : String → Option String)
    (path : String) (content : List (List Nat)) : Option String :=
  (resolveMimeType sniff extOf mimeForExt path content none).1

/-- The operation `mimeType(path, options)`: prefers the stored content type from
`stat`; otherwise fails under `disallowFallback`; otherwise resolves
via `lookup(path)` (`fallbackMethod = 'path'`, the default) or via the
stream resolver (`fallbackMethod = 'stream'`).  `pathLookup` is the
result of the `mime-types` `lookup(path)` call (`false` ↦ `none`). -/
def mimeType (path : String) (headResp : HeadResponse) (options : MimeTypeOptions)
    (pathLookup : Option String) (sniff : List Nat → Option String)
    (extOf : String → String) (mimeForExt : String → Option String)
    (content : List (List Nat)) : Except MimeErr String :=
  let response := stat path headResp
  if response.isFile = false then .error .notAFile
  else if jsTruthyStr response.mimeType then .ok (response.mimeType.getD "")
  else if options.disallowFallback then .error .notAvailableViaHeadObject
  else
    let method := options.fallbackMethod.getD "path"
    let mt := if method = "path" then pathLookup
              else lookupMimeTypeFromStream sniff extOf mimeForExt path content
    match mt with
    | none => .error .unableToResolve
    | some m => .ok m

/-! ## Listing (`list`, `listObjects`) over the flat key namespace

Keys and paths are embedded as `List Char`.  The S3 backend itself is
not part of the repository; its `ListObjectsV2` semantics are
modelled from the spec (flat key namespace; with a delimiter the
backend groups keys sharing a first path segment below the queried
key prefix into `CommonPrefixes`). -/

def sep : Char := '/'

/-- An object stored in the bucket. -/
structure S3Object where
  Key : List Char
  Size : Option Nat
  LastModified : Option Int
deriving Repr, DecidableEq

/-- Modelled from the spec: `PathPrefixer.prefixDirectoryPath` joins
the configured root and the logical path and guarantees a trailing
separator.  `root` is the configured prefix, already normalized to be
empty or separator-terminated; the logical path is in file form (no
trailing separator). -/
def prefixDirectoryPath (root p : List Char) : List Char := root ++ p ++ [sep]

/-- Modelled from the spec: `PathPrefixer.stripDirectoryPath` removes
the configured root and the trailing separator. -/
def removeTrailingSep (l : List Char) : List Char :=
  if l.getLast? = some sep then l.dropLast else l

def stripDirectoryPath (root k : List Char) : List Char :=
  removeTrailingSep (k.drop root.length)

/-- Modelled from the spec: `PathPrefixer.stripFilePath` removes the
configured root. -/
def stripFilePath (root k : List Char) : List Char := k.drop root.length

/-- The part of a key below the queried key prefix. -/
def restOf (pre k : List Char) : List Char := k.drop pre.length

/-- Modelled from the spec: with delimiter `/`, every key below the
queried prefix whose remainder contains the separator is rolled up
into the common prefix ending at the first separator; the backend
lists each common prefix once. -/
def s3CommonPrefixes (bucket : List S3Object) (pre : List Char) : List (List Char) :=
  ((bucket.filter (fun o => pre.isPrefixOf o.Key && (restOf pre o.Key).contains sep)).map
    (fun o => pre ++ ((restOf pre o.Key).takeWhile (fun c => c != sep) ++ [sep]))).dedup

/-- Modelled from the spec: the `Contents` of a `ListObjectsV2`
response — all keys below the prefix; with delimiter `/` only those
whose remainder holds no separator. -/
def s3Contents (bucket : List S3Object) (pre : List Char) (deep : Bool) : List S3Object :=
  if deep then bucket.filter (fun o => pre.isPrefixOf o.Key)
  else bucket.filter (fun o => pre.isPrefixOf o.Key && !(restOf pre o.Key).contains sep)

/-- One `ListObjectsV2` response page. -/
structure ListPage where
  CommonPrefixes : List (List Char)
  Contents : List S3Object
  IsTruncated : Bool
deriving Repr, DecidableEq

/-- The complete (untruncated) response for the modelled backend. -/
def s3Page (bucket : List S3Object) (pre : List Char) (deep : Bool) : ListPage :=
  { CommonPrefixes := if deep then [] else s3CommonPrefixes bucket pre
    Contents := s3Contents bucket pre deep
    IsTruncated := false }

/-- An item yielded by the `listObjects` generator. -/
inductive ObjEntry where
  | commonPfx (p : List Char)
  | object (o : S3Object)
deriving Repr, DecidableEq

/-- The items `listObjects` yields from one response page: prefix
items first (skipping the queried prefix itself unless `includeSelf`),
then object items under the same skip rule. -/
def pageEntries (pre : List Char) (includePrefixes includeSelf : Bool)
    (page : ListPage) : List ObjEntry :=
  ((if includePrefixes then page.CommonPrefixes else []).filter
      (fun p => includeSelf || p != pre)).map .commonPfx
    ++ (page.Contents.filter (fun o => includeSelf || o.Key != pre)).map .object

/-- The `while` loop of `listObjects`: each round trip consumes the
next response page; the loop continues while the backend reports
truncation and the optional `maxKeys` cap has not been reached by the
count of yielded items. -/
def listObjectsLoop (pre : List Char) (includePrefixes includeSelf : Bool)
    (maxKeys : Option Nat) : List ListPage → Nat → List ObjEntry
  | [], _ => []
  | page :: rest, collected =>
    if maxKeys.elim true (fun mk => collected < mk) then
      let items := pageEntries pre includePrefixes includeSelf page
      items ++ (if page.IsTruncated then
        listObjectsLoop pre includePrefixes includeSelf maxKeys rest
          (collected + items.length)
      else [])
    else []

/-- The generator `listObjects(path, options)` against the modelled backend, which
answers with its complete listing in a single page. -/
def listObjects (bucket : List S3Object) (root path : List Char)
    (deep includePrefixes includeSelf : Bool) (maxKeys : Option Nat) : List ObjEntry :=
  let pre := prefixDirectoryPath root path
  listObjectsLoop pre includePrefixes includeSelf maxKeys [s3Page bucket pre deep] 0

/-- A `StatEntry` yielded by `list` (paths as `List Char`; the
directory variant leaves `size`/`lastModifiedMs` absent). -/
structure ListEntry where
  type : EntryType
  path : List Char
  size : Option Nat
  lastModifiedMs : Option Int
deriving Repr, DecidableEq

/-- How `list` turns one yielded item into a `StatEntry`: prefix items
become directory entries; object keys ending in the separator become
directory entries; other objects become file entries. -/
def listEntryOf (root : List Char) : ObjEntry → ListEntry
  | .commonPfx p =>
    { type := .directory, path := stripDirectoryPath root p
      size := none, lastModifiedMs := none }
  | .object o =>
    if o.Key.getLast? = some sep then
      { type := .directory, path := stripDirectoryPath root o.Key
        size := none, lastModifiedMs := none }
    else
      { type := .file, path := stripFilePath root o.Key
        size := some (o.Size.getD 0)
        lastModifiedMs := o.LastModified.map getMilliseconds }

/-- The operation `list(path, deep)`: `listObjects` with prefixes included and the
queried path excluded, mapped to `StatEntry` values. -/
def list (bucket : List S3Object) (root path : List Char) (deep : Bool) : List ListEntry :=
  (listObjects bucket root path deep true false none).map (listEntryOf root)

/-- The check `directoryExists(path)`: consumes the deep, self-including listing
capped at one key; any item means `true`, an exhausted listing means
`false`, and a listing error propagates. -/
def directoryExists (listing : Except S3Error (List ObjEntry)) : Except S3Error Bool :=
  match listing with
  | .ok items => .ok (!items.isEmpty)
  | .error e => .error e

/-- Whether a key holds two consecutive separators.  Keys written
through the adapter never do: file keys never end in the separator
and directory keys append a single separator to a file-form path. -/
def hasDoubleSep : List Char → Bool
  | a :: b :: t => (a = sep && b = sep) || hasDoubleSep (b :: t)
  | _ => false

/-! # Theorems -/

/-! ## C1: deleteDirectory batching -/

/-- When all keys fit within one flush threshold, the loop emits a
single final batch holding every accumulated key. -/
theorem deleteDirGo_single_batch :
    ∀ (ks bucket : List String) (acc : List (List String)),
      bucket.length + ks.length ≤ 1001 → 0 < bucket.length + ks.length →
      deleteDirGo ks bucket acc = acc ++ [bucket ++ ks] := by
  intro ks
  induction ks with
  | nil =>
    intro bucket acc _ hpos
    simp only [deleteDirGo, List.append_nil]
    have : bucket.length > 0 := by simpa using hpos
    simp [this]
  | cons k ks ih =>
    intro bucket acc hle hpos
    simp only [deleteDirGo]
    by_cases h : (bucket ++ [k]).length > 1000
    · have hb : bucket.length + 1 > 1000 := by simpa using h
      have hks : ks.length = 0 := by
        simp only [List.length_cons] at hle
        omega
      have hksnil : ks = [] := List.length_eq_zero.mp hks
      subst hksnil
      simp [h, deleteDirGo]
    · simp only [h, if_false]
      rw [ih (bucket ++ [k]) acc (by simp at hle ⊢; omega) (by simp)]
      simp

/-- C1: the claim fails on the code.  `deleteDirectory` flushes only
when the accumulated bucket already EXCEEDS 1000 keys
(`bucket.length > 1000`), so a recursive listing of 1001 keys is
dispatched as one physical delete-batch request holding 1001 keys —
more than the claimed 1000-key bound. -/
theorem deleteDirectory_batch_exceeds_limit :
    deleteDirectoryBatches (List.replicate 1001 "k") = [List.replicate 1001 "k"] ∧
    ∃ batch ∈ deleteDirectoryBatches (List.replicate 1001 "k"), 1000 < batch.length := by
  have h : deleteDirectoryBatches (List.replicate 1001 "k")
      = [List.replicate 1001 "k"] := by
    have h1 : ([] : List String).length + (List.replicate 1001 "k").length ≤ 1001 := by
      simp only [List.length_nil, List.length_replicate]
      omega
    have h2 : 0 < ([] : List String).length + (List.replicate 1001 "k").length := by
      simp only [List.length_nil, List.length_replicate]
      omega
    have := deleteDirGo_single_batch (List.replicate 1001 "k") [] [] h1 h2
    simp only [List.nil_append] at this
    simpa only [deleteDirectoryBatches] using this
  refine ⟨h, List.replicate 1001 "k", ?_, ?_⟩
  · rw [h]
    exact List.mem_singleton_self _
  · simp only [List.length_replicate]
    omega

/-! ## C2: the resolver's returned stream replays every byte -/

/-- Every `data` event forwards its chunk to the output stream,
whether or not the head has already resolved. -/
theorem onData_forwarded (size : Nat) (s : HeadState) (chunk : List Nat) :
    (onData size s chunk).forwarded = s.forwarded ++ [chunk] := by
  simp only [onData]
  by_cases h : s.resolved
  · simp [h]
  · simp only [h, if_false]
    split
    · rfl
    · split <;> rfl

theorem foldl_onData_forwarded (size : Nat) :
    ∀ (chunks : List (List Nat)) (s : HeadState),
      (chunks.foldl (onData size) s).forwarded = s.forwarded ++ chunks := by
  intro chunks
  induction chunks with
  | nil => intro s; simp
  | cons c cs ih =>
    intro s
    simp only [List.foldl_cons]
    rw [ih, onData_forwarded]
    simp

theorem onEnd_forwarded (s : HeadState) : (onEnd s).forwarded = s.forwarded := by
  simp only [onEnd]
  split <;> rfl

/-- The output stream of `streamHead` carries exactly the input
chunks. -/
theorem streamHead_output (chunks : List (List Nat)) (size : Nat) :
    (streamHead chunks size).2 = chunks := by
  simp only [streamHead, onEnd_forwarded, foldl_onData_forwarded]
  simp [initialHeadState]

/-- C2: the stream returned by `resolveMimeType` yields exactly the
byte sequence of the original input stream — the same chunks, hence
the same bytes, with nothing lost or duplicated; in particular this
holds for streams shorter than 4100 bytes. -/
theorem resolveMimeType_preserves_content
    (sniff : List Nat → Option String) (extOf : String → String)
    (mimeForExt : String → Option String) (filename : String)
    (chunks : List (List Nat)) (fallback : Option String) :
    (resolveMimeType sniff extOf mimeForExt filename chunks fallback).2 = chunks ∧
    ((resolveMimeType sniff extOf mimeForExt filename chunks fallback).2).flatten
      = chunks.flatten := by
  have h : (resolveMimeType sniff extOf mimeForExt filename chunks fallback).2 = chunks := by
    simp only [resolveMimeType]
    cases hs : sniff (streamHead chunks 4100).1 with
    | some m => simpa using streamHead_output chunks 4100
    | none =>
      cases he : mimeForExt (extOf filename) with
      | some m => simpa using streamHead_output chunks 4100
      | none => simpa using streamHead_output chunks 4100
  exact ⟨h, by rw [h]⟩

/-! ## C4: resolution precedence of `resolveMimeType` -/

/-- C4: `resolveMimeType` resolves in the order: content sniffing on
the buffered head, then extension lookup on the filename, then the
caller-supplied fallback, then unresolved (`none`). -/
theorem resolveMimeType_precedence
    (sniff : List Nat → Option String) (extOf : String → String)
    (mimeForExt : String → Option String) (filename : String)
    (chunks : List (List Nat)) (fallback : Option String) :
    (resolveMimeType sniff extOf mimeForExt filename chunks fallback).1
      = (sniff (streamHead chunks 4100).1).orElse
          (fun _ => (mimeForExt (extOf filename)).orElse (fun _ => fallback)) := by
  simp only [resolveMimeType]
  cases hs : sniff (streamHead chunks 4100).1 with
  | some m => simp [Option.orElse]
  | none =>
    cases he : mimeForExt (extOf filename) with
    | some m => simp [Option.orElse]
    | none => simp [Option.orElse]

/-! ## C3: checksum algorithm dispatch -/

/-- C3 counterexample: the claim as stated is false for the empty
algorithm string.  Its uppercase normalization (`""`) is not in the
supported set, yet `checksum` does not raise `ChecksumIsNotAvailable`:
the JavaScript `||` chain treats `""` as absent and falls back to the
default `SHA256`, so the head request proceeds. -/
theorem checksum_empty_algo_counterexample :
    isSupportedAlgo (strToUpper "") = false ∧
    checksumDispatch (some "") none = ChecksumDispatch.headRequest "SHA256" := by
  constructor
  · rfl
  · rfl

/-- C3 (amended): for every non-empty algorithm string, `checksum`
raises the distinct `ChecksumIsNotAvailable` error exactly when the
uppercase normalization of the string is outside
{SHA1, SHA256, CRC32, CRC32C, ETAG}; matching is therefore
case-insensitive on the input. -/
theorem checksum_algo_dispatch (s : String) (defAlgo : Option String)
    (hne : s ≠ "") :
    (isSupportedAlgo (strToUpper s) = false →
      checksumDispatch (some s) defAlgo = ChecksumDispatch.notAvailable (strToUpper s)) ∧
    (isSupportedAlgo (strToUpper s) = true →
      checksumDispatch (some s) defAlgo = ChecksumDispatch.headRequest (strToUpper s)) := by
  have halgo : jsOrStr (some s) (jsOrStr defAlgo "SHA256") = s := by
    simp [jsOrStr, hne]
  constructor
  · intro hun
    simp [checksumDispatch, halgo, hun]
  · intro hsup
    simp [checksumDispatch, halgo, hsup]

/-- Witness for C3: the unrecognized algorithm `md5` is rejected with
the distinct signal, and the lower-case `sha1` is accepted. -/
theorem checksum_algo_dispatch_witness :
    checksumDispatch (some "md5") none = ChecksumDispatch.notAvailable "MD5" ∧
    checksumDispatch (some "sha1") none = ChecksumDispatch.headRequest "SHA1" :=
  ⟨(checksum_algo_dispatch "md5" none (by decide)).1 (by decide),
   (checksum_algo_dispatch "sha1" none (by decide)).2 (by decide)⟩

/-! ## C5: visibility mapping -/

/-- C5: `visibilityToAcl` is total on {PUBLIC, PRIVATE} — PUBLIC maps
to the `public-read` grant and PRIVATE to the `private` grant — and
throws on every other value; `visibility` answers PUBLIC exactly when
the object's grants contain an all-users READ grant, and PRIVATE
otherwise. -/
theorem visibility_mapping (v : String) (grants : Option (List Grant))
    (h1 : v ≠ visibilityPublic) (h2 : v ≠ visibilityPrivate) :
    visibilityToAcl visibilityPublic = .ok "public-read" ∧
    visibilityToAcl visibilityPrivate = .ok "private" ∧
    visibilityToAcl v = .error ("Unrecognized visibility provided; " ++ v) ∧
    (visibilityFromGrants grants = visibilityPublic ↔
      (grants.getD []).any isAllUsersRead = true) ∧
    (visibilityFromGrants grants = visibilityPrivate ↔
      (grants.getD []).any isAllUsersRead = false) := by
  have hpp : visibilityPublic ≠ visibilityPrivate := by decide
  refine ⟨?_, ?_, ?_, ?_, ?_⟩
  · simp [visibilityToAcl]
  · simp [visibilityToAcl, visibilityPublic, visibilityPrivate]
  · simp [visibilityToAcl, h1, h2]
  · cases grants with
    | none => simp [visibilityFromGrants, hpp.symm]
    | some gs =>
      simp only [visibilityFromGrants, Option.map_some, Option.getD_some]
      by_cases h : gs.any isAllUsersRead <;> simp [h, hpp, hpp.symm]
  · cases grants with
    | none => simp [visibilityFromGrants]
    | some gs =>
      simp only [visibilityFromGrants, Option.map_some, Option.getD_some]
      by_cases h : gs.any isAllUsersRead <;> simp [h, hpp, hpp.symm]

/-- Witness for C5: the string `"banana"` is rejected, and a grant
list holding the all-users READ grant answers PUBLIC. -/
theorem visibility_mapping_witness :
    visibilityToAcl "banana" = .error ("Unrecognized visibility provided; " ++ "banana") ∧
    visibilityFromGrants (some [⟨some allUsersURI, some "READ"⟩]) = visibilityPublic :=
  ⟨(visibility_mapping "banana" none (by decide) (by decide)).2.2.1,
   (visibility_mapping "banana"
      (some [⟨some allUsersURI, some "READ"⟩]) (by decide) (by decide)).2.2.2.1.mpr
      (by decide)⟩

/-! ## C6: existence checks never raise on not-found -/

/-- C6: `fileExists` maps a successful head to `true` and a 404
`S3ServiceException` to `false`, rethrowing every other error;
`directoryExists` maps an exhausted listing to `false`, a non-empty
listing to `true`, and propagates listing errors. -/
theorem exists_checks_not_found (r : HeadResponse) (e : S3Error)
    (items : List ObjEntry) :
    fileExists (.ok r) = .ok true ∧
    (e.isS3ServiceException = true → e.httpStatusCode = some 404 →
      fileExists (.error e) = .ok false) ∧
    (¬(e.isS3ServiceException = true ∧ e.httpStatusCode = some 404) →
      fileExists (.error e) = .error e) ∧
    directoryExists (.ok []) = .ok false ∧
    (items ≠ [] → directoryExists (.ok items) = .ok true) ∧
    directoryExists (.error e) = .error e := by
  refine ⟨rfl, ?_, ?_, rfl, ?_, rfl⟩
  · intro hs hc
    simp [fileExists, hs, hc]
  · intro hn
    simp only [fileExists]
    have : (e.isS3ServiceException && e.httpStatusCode == some 404) = false := by
      cases hb : e.isS3ServiceException
      · simp
      · by_cases hc : e.httpStatusCode = some 404
        · exact absurd ⟨hb, hc⟩ hn
        · simp [hc]
    simp [this]
  · intro hne
    simp [directoryExists, List.isEmpty_iff, hne]

/-- Witness for C6: a 404 service error yields `false`, a non-404
error is rethrown, and a non-empty listing yields `true`. -/
theorem exists_checks_not_found_witness :
    fileExists (.error ⟨true, some 404⟩) = .ok false ∧
    fileExists (.error ⟨true, some 500⟩) = .error ⟨true, some 500⟩ ∧
    directoryExists (.ok [ObjEntry.object ⟨['a'], none, none⟩]) = .ok true :=
  ⟨(exists_checks_not_found ⟨none, none, none⟩ ⟨true, some 404⟩ []).2.1 rfl rfl,
   (exists_checks_not_found ⟨none, none, none⟩ ⟨true, some 500⟩ []).2.2.1
     (by intro h; exact absurd h.2 (by decide)),
   (exists_checks_not_found ⟨none, none, none⟩ ⟨true, some 404⟩
     [ObjEntry.object ⟨['a'], none, none⟩]).2.2.2.2.1 (by decide)⟩

/-! ## C7: mimeType resolution on the adapter -/

/-- C7: `mimeType` returns the backend-stored content type when
present; fails under `disallowFallback` when it is absent; otherwise
resolves by filename extension (`fallbackMethod = 'path'`, the
default) or by re-reading the object through the stream resolver
(`fallbackMethod = 'stream'`), failing when the chosen fallback
yields no type. -/
theorem mimeType_resolution (path : String) (headResp : HeadResponse)
    (options : MimeTypeOptions) (pathLookup : Option String)
    (sniff : List Nat → Option String) (extOf : String → String)
    (mimeForExt : String → Option String) (content : List (List Nat)) :
    (∀ m, headResp.ContentType = some m → m ≠ "" →
      mimeType path headResp options pathLookup sniff extOf mimeForExt content = .ok m) ∧
    (jsTruthyStr headResp.ContentType = false → options.disallowFallback = true →
      mimeType path headResp options pathLookup sniff extOf mimeForExt content
        = .error .notAvailableViaHeadObject) ∧
    (jsTruthyStr headResp.ContentType = false → options.disallowFallback = false →
      (options.fallbackMethod = none ∨ options.fallbackMethod = some "path") →
      mimeType path headResp options pathLookup sniff extOf mimeForExt content
        = match pathLookup with
          | some m => .ok m
          | none => .error .unableToResolve) ∧
    (jsTruthyStr headResp.ContentType = false → options.disallowFallback = false →
      options.fallbackMethod = some "stream" →
      mimeType path headResp options pathLookup sniff extOf mimeForExt content
        = match lookupMimeTypeFromStream sniff extOf mimeForExt path content with
          | some m => .ok m
          | none => .error .unableToResolve) := by
  refine ⟨?_, ?_, ?_, ?_⟩
  · intro m hct hm
    simp [mimeType, stat, hct, jsTruthyStr, hm]
  · intro hct hdf
    simp [mimeType, stat, hct, hdf]
  · intro hct hdf hfm
    rcases hfm with hfm | hfm
    · cases pathLookup <;> simp [mimeType, stat, hct, hdf, hfm]
    · cases pathLookup <;> simp [mimeType, stat, hct, hdf, hfm]
  · intro hct hdf hfm
    have hne : ("stream" : String) ≠ "path" := by decide
    cases hlk : lookupMimeTypeFromStream sniff extOf mimeForExt path content <;>
      simp [mimeType, stat, hct, hdf, hfm, hne, hlk]

/-- Witness for C7: concrete instances of all four resolution paths. -/
theorem mimeType_resolution_witness :
    mimeType "a.png" ⟨some 1, none, some "image/png"⟩
        ⟨false, none⟩ none (fun _ => none) id (fun _ => none) [] = .ok "image/png" ∧
    mimeType "a.png" ⟨some 1, none, none⟩
        ⟨true, none⟩ none (fun _ => none) id (fun _ => none) [] =
      .error .notAvailableViaHeadObject ∧
    mimeType "a.png" ⟨some 1, none, none⟩
        ⟨false, none⟩ (some "image/png") (fun _ => none) id (fun _ => none) [] =
      .ok "image/png" ∧
    mimeType "a.png" ⟨some 1, none, none⟩
        ⟨false, some "stream"⟩ none (fun _ => some "image/gif") id (fun _ => none) [[0]] =
      .ok "image/gif" :=
  ⟨(mimeType_resolution "a.png" ⟨some 1, none, some "image/png"⟩ ⟨false, none⟩ none
      (fun _ => none) id (fun _ => none) []).1 "image/png" rfl (by decide),
   (mimeType_resolution "a.png" ⟨some 1, none, none⟩ ⟨true, none⟩ none
      (fun _ => none) id (fun _ => none) []).2.1 rfl rfl,
   (mimeType_resolution "a.png" ⟨some 1, none, none⟩ ⟨false, none⟩ (some "image/png")
      (fun _ => none) id (fun _ => none) []).2.2.1 rfl rfl (Or.inl rfl),
   (mimeType_resolution "a.png" ⟨some 1, none, none⟩ ⟨false, some "stream"⟩ none
      (fun _ => some "image/gif") id (fun _ => none) [[0]]).2.2.2 rfl rfl rfl⟩

/-! ## C9: the last-modified field is not an epoch timestamp -/

/-- C9: the claim fails on the code.  For a backend last-modified time
of 1500 milliseconds since the epoch, both `stat` and the file entries
of `list` store `lastModifiedMs = 500`: the code calls
`Date.prototype.getMilliseconds()` (the 0–999 millisecond component)
instead of `Date.prototype.getTime()` (the epoch timestamp). -/
theorem lastModifiedMs_is_component_not_timestamp :
    (stat "path.txt" ⟨some 5, some 1500, none⟩).lastModifiedMs = some 500 ∧
    ((500 : Int) = 1500 → False) ∧
    (list [⟨['a', '/', 'b'], some 7, some 1500⟩] [] ['a'] false).map
        ListEntry.lastModifiedMs = [some 500] := by
  refine ⟨rfl, by decide, ?_⟩
  rfl

/-! ## C10: stat always returns the file variant -/

/-- C10: `stat` builds the file variant of `StatEntry` from every head
response: `type = 'file'`, `isFile = true`, `isDirectory = false`,
never a directory variant. -/
theorem stat_always_file_variant (path : String) (response : HeadResponse) :
    (stat path response).type = .file ∧
    (stat path response).isFile = true ∧
    (stat path response).isDirectory = false :=
  ⟨rfl, rfl, rfl⟩

/-! ## C8: listing merges both directory representations, excludes the
queried path, and never duplicates an entry -/

theorem hasDoubleSep_cons (x : Char) (l : List Char)
    (h : hasDoubleSep l = true) : hasDoubleSep (x :: l) = true := by
  cases l with
  | nil => simp [hasDoubleSep] at h
  | cons b t => simp [hasDoubleSep, h]

theorem hasDoubleSep_append (xs t : List Char) :
    hasDoubleSep (xs ++ sep :: sep :: t) = true := by
  induction xs with
  | nil => simp [hasDoubleSep]
  | cons x xs ih => exact hasDoubleSep_cons x _ ih

theorem removeTrailingSep_concat (x : List Char) :
    removeTrailingSep (x ++ [sep]) = x := by
  simp [removeTrailingSep, List.getLast?_concat, List.dropLast_concat]

theorem eq_of_dropLast_getLast? {l₁ l₂ : List Char}
    (hd : l₁.dropLast = l₂.dropLast)
    (h1 : l₁.getLast? = some sep) (h2 : l₂.getLast? = some sep) : l₁ = l₂ := by
  have e1 := List.dropLast_append_getLast? sep (Option.mem_def.mpr h1)
  have e2 := List.dropLast_append_getLast? sep (Option.mem_def.mpr h2)
  rw [← e1, ← e2, hd]

/-- Decomposing a key below the queried prefix. -/
theorem key_eq_of_isPrefixOf {pre k : List Char} (h : pre.isPrefixOf k = true) :
    k = pre ++ restOf pre k := by
  have h' := List.prefix_iff_eq_append.mp (List.isPrefixOf_iff_prefix.mp h)
  simp only [restOf]
  exact h'.symm

theorem stripDir_of_cp (root path seg : List Char) :
    stripDirectoryPath root ((root ++ path ++ [sep]) ++ (seg ++ [sep]))
      = path ++ sep :: seg := by
  have h1 : (root ++ path ++ [sep]) ++ (seg ++ [sep])
      = root ++ ((path ++ sep :: seg) ++ [sep]) := by simp
  rw [stripDirectoryPath, h1, List.drop_left, removeTrailingSep_concat]

theorem stripFile_of_key (root path rest : List Char) :
    stripFilePath root ((root ++ path ++ [sep]) ++ rest) = path ++ sep :: rest := by
  have h1 : (root ++ path ++ [sep]) ++ rest = root ++ (path ++ sep :: rest) := by simp
  rw [stripFilePath, h1, List.drop_left]

theorem mem_s3CommonPrefixes {bucket : List S3Object} {pre p : List Char}
    (h : p ∈ s3CommonPrefixes bucket pre) :
    ∃ o ∈ bucket, pre.isPrefixOf o.Key = true ∧
      (restOf pre o.Key).contains sep = true ∧
      p = pre ++ ((restOf pre o.Key).takeWhile (fun c => c != sep) ++ [sep]) := by
  rw [s3CommonPrefixes, List.mem_dedup] at h
  obtain ⟨o, ho, hp⟩ := List.mem_map.mp h
  have ⟨hob, hcond⟩ := List.mem_filter.mp ho
  rw [Bool.and_eq_true] at hcond
  exact ⟨o, hob, hcond.1, hcond.2, hp.symm⟩

theorem takeWhile_ne_sep_not_mem (l : List Char) :
    sep ∉ l.takeWhile (fun c => c != sep) := by
  intro hmem
  have := List.mem_takeWhile_imp hmem
  simp at this

/-- In a key free of double separators, the first segment below a
separator-terminated prefix is non-empty. -/
theorem takeWhile_ne_nil_of_goodKey {root path rest : List Char} {o : S3Object}
    (hkey : hasDoubleSep o.Key = false)
    (hK : o.Key = (root ++ path ++ [sep]) ++ rest)
    (hrest : rest.contains sep = true) :
    rest.takeWhile (fun c => c != sep) ≠ [] := by
  cases rest with
  | nil => simp at hrest
  | cons c t =>
    by_cases hc : c = sep
    · subst hc
      have hsh : o.Key = (root ++ path) ++ (sep :: sep :: t) := by
        rw [hK]; simp
      rw [hsh, hasDoubleSep_append] at hkey
      exact absurd hkey (by simp)
    · simp [List.takeWhile_cons, hc]

/-- Unfolding `list` against the modelled single-page backend. -/
theorem list_eq (bucket : List S3Object) (root path : List Char) (deep : Bool) :
    list bucket root path deep =
      ((if deep then [] else s3CommonPrefixes bucket (prefixDirectoryPath root path)).filter
          (fun p => p != prefixDirectoryPath root path)).map
        (fun p => listEntryOf root (.commonPfx p))
      ++ ((s3Contents bucket (prefixDirectoryPath root path) deep).filter
          (fun o => o.Key != prefixDirectoryPath root path)).map
        (fun o => listEntryOf root (.object o)) := by
  simp [list, listObjects, listObjectsLoop, pageEntries, s3Page, Option.elim,
    List.map_append, List.map_map, Function.comp_def]

/-- Every object item yielded by the shallow (`deep = false`) listing
has a non-empty, separator-free remainder below the queried prefix. -/
theorem mem_contents_shallow {bucket : List S3Object} {pre : List Char} {o : S3Object}
    (ho : o ∈ (s3Contents bucket pre false).filter (fun o => o.Key != pre)) :
    o ∈ bucket ∧ o.Key = pre ++ restOf pre o.Key ∧ restOf pre o.Key ≠ [] ∧
      (restOf pre o.Key).contains sep = false := by
  have ⟨hof, hne⟩ := List.mem_filter.mp ho
  rw [s3Contents] at hof
  simp only [if_neg (by simp : ¬(false = true))] at hof
  have ⟨hob, hcond⟩ := List.mem_filter.mp hof
  rw [Bool.and_eq_true] at hcond
  have hdec := key_eq_of_isPrefixOf hcond.1
  refine ⟨hob, hdec, ?_, by simpa using hcond.2⟩
  intro hnil
  rw [hnil, List.append_nil] at hdec
  exact absurd hdec (by simpa using hne)

/-- Every object item yielded by the deep listing sits strictly below
the queried prefix. -/
theorem mem_contents_deep {bucket : List S3Object} {pre : List Char} {o : S3Object}
    (ho : o ∈ (s3Contents bucket pre true).filter (fun o => o.Key != pre)) :
    o ∈ bucket ∧ o.Key = pre ++ restOf pre o.Key ∧ restOf pre o.Key ≠ [] := by
  have ⟨hof, hne⟩ := List.mem_filter.mp ho
  rw [s3Contents] at hof
  simp only [if_pos rfl] at hof
  have ⟨hob, hcond⟩ := List.mem_filter.mp hof
  have hdec := key_eq_of_isPrefixOf hcond
  refine ⟨hob, hdec, ?_⟩
  intro hnil
  rw [hnil, List.append_nil] at hdec
  exact absurd hdec (by simpa using hne)

theorem getLast?_of_some_mem {l : List Char} {a : Char} (h : l.getLast? = some a) :
    a ∈ l := by
  obtain ⟨hne, rfl⟩ := List.mem_getLast?_eq_getLast (Option.mem_def.mpr h)
  exact List.getLast_mem hne

/-- A shallow content item never carries a separator-terminated key,
so `list` renders it as a file entry. -/
theorem shallow_key_not_dir {pre rest : List Char} {o : S3Object}
    (hdec : o.Key = pre ++ rest) (hne : rest ≠ [])
    (hnosep : rest.contains sep = false) :
    ¬ o.Key.getLast? = some sep := by
  intro hlast
  rw [hdec, List.getLast?_append_of_ne_nil _ hne] at hlast
  have hmem : sep ∈ rest := getLast?_of_some_mem hlast
  have hnm : sep ∉ rest := by simpa using hnosep
  exact hnm hmem

/-- Characterization of the shallow (`deep = false`) listing: every
entry is an immediate child — its path extends the queried path by the
separator and one non-empty, separator-free segment. -/
theorem mem_list_shallow {bucket : List S3Object} {root path : List Char}
    (hkeys : ∀ o ∈ bucket, hasDoubleSep o.Key = false) :
    ∀ e ∈ list bucket root path false,
      ∃ seg, seg ≠ [] ∧ sep ∉ seg ∧ e.path = path ++ sep :: seg := by
  intro e he
  rw [list_eq] at he
  simp only [Bool.false_eq_true, if_false] at he
  rcases List.mem_append.mp he with hd | hf
  · obtain ⟨p, hpf, hep⟩ := List.mem_map.mp hd
    have ⟨hpc, _⟩ := List.mem_filter.mp hpf
    obtain ⟨o, hob, hpre, hsep, hshape⟩ := mem_s3CommonPrefixes hpc
    have hK : o.Key = (root ++ path ++ [sep]) ++ restOf (prefixDirectoryPath root path) o.Key :=
      key_eq_of_isPrefixOf hpre
    refine ⟨(restOf (prefixDirectoryPath root path) o.Key).takeWhile (fun c => c != sep),
      takeWhile_ne_nil_of_goodKey (hkeys o hob) hK hsep,
      takeWhile_ne_sep_not_mem _, ?_⟩
    rw [← hep]
    show stripDirectoryPath root p = _
    rw [hshape]
    exact stripDir_of_cp root path _
  · obtain ⟨o, hof, hep⟩ := List.mem_map.mp hf
    obtain ⟨hob, hdec, hne, hnosep⟩ := mem_contents_shallow hof
    set rest := restOf (prefixDirectoryPath root path) o.Key with hrestdef
    refine ⟨rest, hne, by simpa using hnosep, ?_⟩
    rw [← hep]
    show (listEntryOf root (ObjEntry.object o)).path = _
    rw [listEntryOf]
    rw [if_neg (shallow_key_not_dir hdec hne hnosep)]
    show stripFilePath root o.Key = _
    rw [hdec]
    show stripFilePath root ((root ++ path ++ [sep]) ++ rest) = _
    exact stripFile_of_key root path rest

/-- How `list` renders an object key below the queried prefix: a
directory entry (key ends in the separator) or a file entry. -/
theorem listEntry_object_shape {root path rest : List Char} {o : S3Object}
    (hdec : o.Key = prefixDirectoryPath root path ++ rest) (hne : rest ≠ []) :
    (rest.getLast? = some sep ∧
      listEntryOf root (ObjEntry.object o)
        = ⟨.directory, path ++ sep :: rest.dropLast, none, none⟩)
    ∨ (¬ rest.getLast? = some sep ∧
      listEntryOf root (ObjEntry.object o)
        = ⟨.file, path ++ sep :: rest, some (o.Size.getD 0),
            o.LastModified.map getMilliseconds⟩) := by
  have hlasteq : o.Key.getLast? = rest.getLast? := by
    rw [hdec, List.getLast?_append_of_ne_nil _ hne]
  by_cases hlast : rest.getLast? = some sep
  · left
    refine ⟨hlast, ?_⟩
    rw [listEntryOf, if_pos (hlasteq.trans hlast)]
    have hrsplit : rest = rest.dropLast ++ [sep] :=
      (List.dropLast_append_getLast? sep (Option.mem_def.mpr hlast)).symm
    have hpath : stripDirectoryPath root o.Key = path ++ sep :: rest.dropLast := by
      rw [hdec]
      conv_lhs => rw [hrsplit]
      show stripDirectoryPath root ((root ++ path ++ [sep]) ++ (rest.dropLast ++ [sep])) = _
      exact stripDir_of_cp root path rest.dropLast
    rw [hpath]
  · right
    refine ⟨hlast, ?_⟩
    rw [listEntryOf, if_neg (fun h => hlast (hlasteq.symm.trans h))]
    have hpath : stripFilePath root o.Key = path ++ sep :: rest := by
      rw [hdec]
      show stripFilePath root ((root ++ path ++ [sep]) ++ rest) = _
      exact stripFile_of_key root path rest
    rw [hpath]

/-- Every entry of the deep listing lies strictly below the queried
path: its path is strictly longer. -/
theorem mem_list_deep_path_longer {bucket : List S3Object} {root path : List Char} :
    ∀ e ∈ list bucket root path true, path.length < e.path.length := by
  intro e he
  rw [list_eq] at he
  simp only [if_pos rfl, List.filter_nil, List.map_nil, List.nil_append] at he
  obtain ⟨o, hof, hep⟩ := List.mem_map.mp he
  obtain ⟨hob, hdec, hne⟩ := mem_contents_deep hof
  rcases listEntry_object_shape hdec hne with ⟨_, hshape⟩ | ⟨_, hshape⟩ <;>
  · rw [← hep, hshape]
    simp only [List.length_append, List.length_cons]
    omega

/-- Two bucket objects with the same key are the same object. -/
theorem object_eq_of_key_eq {bucket : List S3Object} {x y : S3Object}
    (hnodup : (bucket.map S3Object.Key).Nodup)
    (hx : x ∈ bucket) (hy : y ∈ bucket) (h : x.Key = y.Key) : x = y :=
  List.inj_on_of_nodup_map hnodup hx hy h

/-- The deep listing yields no two entries with the same type and
path. -/
theorem nodup_list_deep {bucket : List S3Object} {root path : List Char}
    (hnodup : (bucket.map S3Object.Key).Nodup) :
    ((list bucket root path true).map (fun e => (e.type, e.path))).Nodup := by
  rw [list_eq]
  simp only [eq_self_iff_true, if_true, List.filter_nil, List.map_nil, List.nil_append,
    List.map_map]
  apply List.Nodup.map_on
  · intro x hx y hy hfxy
    obtain ⟨hxb, hxdec, hxne⟩ := mem_contents_deep hx
    obtain ⟨hyb, hydec, hyne⟩ := mem_contents_deep hy
    simp only [Function.comp_def] at hfxy
    rcases listEntry_object_shape hxdec hxne with ⟨hxl, hxs⟩ | ⟨hxl, hxs⟩ <;>
      rcases listEntry_object_shape hydec hyne with ⟨hyl, hys⟩ | ⟨hyl, hys⟩ <;>
      rw [hxs, hys] at hfxy <;> simp only [Prod.mk.injEq] at hfxy
    · have hdl : (restOf (prefixDirectoryPath root path) x.Key).dropLast
          = (restOf (prefixDirectoryPath root path) y.Key).dropLast := by
        have h2 := List.append_cancel_left hfxy.2
        injection h2
      have hr : restOf (prefixDirectoryPath root path) x.Key
          = restOf (prefixDirectoryPath root path) y.Key :=
        eq_of_dropLast_getLast? hdl hxl hyl
      exact object_eq_of_key_eq hnodup hxb hyb (by rw [hxdec, hydec, hr])
    · exact absurd hfxy.1 (by simp)
    · exact absurd hfxy.1 (by simp)
    · have hr : restOf (prefixDirectoryPath root path) x.Key
          = restOf (prefixDirectoryPath root path) y.Key := by
        have := List.append_cancel_left hfxy.2
        injection this
      exact object_eq_of_key_eq hnodup hxb hyb (by rw [hxdec, hydec, hr])
  · exact ((List.Nodup.of_map _ hnodup).filter _).filter _

/-- How `list` renders a common-prefix item. -/
theorem listEntry_cp_shape {root path seg p : List Char}
    (hshape : p = prefixDirectoryPath root path ++ (seg ++ [sep])) :
    listEntryOf root (ObjEntry.commonPfx p)
      = ⟨.directory, path ++ sep :: seg, none, none⟩ := by
  rw [listEntryOf, hshape]
  show (⟨EntryType.directory,
    stripDirectoryPath root ((root ++ path ++ [sep]) ++ (seg ++ [sep])),
    none, none⟩ : ListEntry) = _
  rw [stripDir_of_cp]

/-- The shallow listing yields no two entries with the same type and
path: directories (deduplicated common prefixes) and files (distinct
keys) never collide. -/
theorem nodup_list_shallow {bucket : List S3Object} {root path : List Char}
    (hnodup : (bucket.map S3Object.Key).Nodup) :
    ((list bucket root path false).map (fun e => (e.type, e.path))).Nodup := by
  rw [list_eq]
  simp only [Bool.false_eq_true, if_false, List.map_append, List.map_map]
  apply List.Nodup.append
  · apply List.Nodup.map_on
    · intro x hx y hy hfxy
      obtain ⟨o₁, _, _, _, hxs⟩ := mem_s3CommonPrefixes (List.mem_filter.mp hx).1
      obtain ⟨o₂, _, _, _, hys⟩ := mem_s3CommonPrefixes (List.mem_filter.mp hy).1
      simp only [Function.comp_def] at hfxy
      rw [listEntry_cp_shape hxs, listEntry_cp_shape hys] at hfxy
      simp only [Prod.mk.injEq] at hfxy
      have hseg := List.append_cancel_left hfxy.2
      injection hseg with _ hseg'
      rw [hxs, hys, hseg']
    · exact (List.nodup_dedup _).filter _
  · apply List.Nodup.map_on
    · intro x hx y hy hfxy
      obtain ⟨hxb, hxdec, hxne, hxnosep⟩ := mem_contents_shallow hx
      obtain ⟨hyb, hydec, hyne, hynosep⟩ := mem_contents_shallow hy
      have hxnd : ¬ (restOf (prefixDirectoryPath root path) x.Key).getLast? = some sep :=
        fun h => (by simpa using hxnosep : sep ∉ _) (getLast?_of_some_mem h)
      have hynd : ¬ (restOf (prefixDirectoryPath root path) y.Key).getLast? = some sep :=
        fun h => (by simpa using hynosep : sep ∉ _) (getLast?_of_some_mem h)
      rcases listEntry_object_shape hxdec hxne with ⟨hxl, _⟩ | ⟨_, hxs⟩
      · exact absurd hxl hxnd
      rcases listEntry_object_shape hydec hyne with ⟨hyl, _⟩ | ⟨_, hys⟩
      · exact absurd hyl hynd
      simp only [Function.comp_def] at hfxy
      rw [hxs, hys] at hfxy
      simp only [Prod.mk.injEq] at hfxy
      have hc := List.append_cancel_left hfxy.2
      injection hc with _ hr
      exact object_eq_of_key_eq hnodup hxb hyb (by rw [hxdec, hydec, hr])
    · exact ((List.Nodup.of_map _ hnodup).filter _).filter _
  · rw [List.disjoint_left]
    intro a ha hb
    obtain ⟨p, hp, hpa⟩ := List.mem_map.mp ha
    obtain ⟨o, ho, hoa⟩ := List.mem_map.mp hb
    obtain ⟨o₁, _, _, _, hps⟩ := mem_s3CommonPrefixes (List.mem_filter.mp hp).1
    obtain ⟨hob, hodec, hone, honosep⟩ := mem_contents_shallow ho
    have hond : ¬ (restOf (prefixDirectoryPath root path) o.Key).getLast? = some sep :=
      fun h => (by simpa using honosep : sep ∉ _) (getLast?_of_some_mem h)
    rcases listEntry_object_shape hodec hone with ⟨hl, _⟩ | ⟨_, hos⟩
    · exact absurd hl hond
    simp only [Function.comp_def] at hpa hoa
    rw [listEntry_cp_shape hps] at hpa
    rw [hos] at hoa
    rw [← hpa] at hoa
    simp only [Prod.mk.injEq] at hoa
    exact absurd hoa.1 (by simp)

/-- C8: for well-formed buckets (distinct keys, no empty path
segments) and a non-empty logical path, `list` never yields an entry
for the queried path itself; no two entries share a type and path (so
no directory is duplicated between its zero-length-marker and its
prefix-derived representation); and with `deep = false` every entry is
an immediate child — the queried path extended by the separator and
one non-empty, separator-free segment. -/
theorem list_excludes_self_and_never_duplicates
    (bucket : List S3Object) (root path : List Char) (deep : Bool)
    (hnodup : (bucket.map S3Object.Key).Nodup)
    (hkeys : ∀ o ∈ bucket, hasDoubleSep o.Key = false)
    (_hpath : path ≠ []) :
    (∀ e ∈ list bucket root path deep, e.path ≠ path) ∧
    ((list bucket root path deep).map (fun e => (e.type, e.path))).Nodup ∧
    (deep = false → ∀ e ∈ list bucket root path deep,
      ∃ seg, seg ≠ [] ∧ sep ∉ seg ∧ e.path = path ++ sep :: seg) := by
  refine ⟨?_, ?_, fun hdeep => hdeep ▸ mem_list_shallow hkeys⟩
  · intro e he heq
    cases deep with
    | true =>
      have hlt := mem_list_deep_path_longer e he
      rw [heq] at hlt
      exact lt_irrefl _ hlt
    | false =>
      obtain ⟨seg, _, _, hp⟩ := mem_list_shallow hkeys e he
      rw [heq] at hp
      have hlen : path.length = (path ++ sep :: seg).length := by rw [← hp]
      simp only [List.length_append, List.length_cons] at hlen
      omega
  · cases deep with
    | true => exact nodup_list_deep hnodup
    | false => exact nodup_list_shallow hnodup

/-- Witness for C8: a concrete bucket holding the queried directory's
own marker, a file, and a subdirectory in both representations
(explicit marker and implied prefix) lists without duplicates. -/
theorem list_excludes_self_witness :
    ((list
        [⟨['r', '/', 'a', '/'], none, none⟩,
         ⟨['r', '/', 'a', '/', 'b'], some 1, some 1500⟩,
         ⟨['r', '/', 'a', '/', 'c', '/'], none, none⟩,
         ⟨['r', '/', 'a', '/', 'c', '/', 'd'], some 2, none⟩,
         ⟨['r', '/', 'x'], some 3, none⟩]
        ['r', '/'] ['a'] false).map (fun e => (e.type, e.path))).Nodup :=
  (list_excludes_self_and_never_duplicates
      [⟨['r', '/', 'a', '/'], none, none⟩,
       ⟨['r', '/', 'a', '/', 'b'], some 1, some 1500⟩,
       ⟨['r', '/', 'a', '/', 'c', '/'], none, none⟩,
       ⟨['r', '/', 'a', '/', 'c', '/', 'd'], some 2, none⟩,
       ⟨['r', '/', 'x'], some 3, none⟩]
      ['r', '/'] ['a'] false (by decide) (by decide) (by decide)).2.1
